import Mathlib

/-!
Verification of the secure-model-pipeline and inference-worker backend.

The development shallowly embeds the Python sources:
  * `src/ai/model_encryption.py`   (class `ModelEncryption`)
  * `src/backend/ai/model_loader.py` (class `SecureModelLoader`)
  * `src/ai/inference_server.py`   (worker loop, classification helpers)

Byte strings are modelled as `List ℕ`, Python strings as `String` or
`List Char`, floats occurring only in exact decimal comparisons as `ℚ`.
The external `cryptography.fernet` authenticated-encryption primitive and
SHA-256 are external collaborators of the repository (spec §1); they are
modelled as an idealized token scheme and an abstract hash-function
parameter respectively.
-/

/-! ### Idealized model of the external Fernet authenticated encryption.
A genuine Fernet token determines the key it was produced under and the
plaintext it encrypts; decryption under `key` succeeds exactly on tokens
produced under `key`.  Unforgeability (an adversary holding a token cannot
fabricate a distinct valid token) is taken as an explicit hypothesis where
a theorem needs it. -/

structure Ciphertext where
  ckey : ℕ
  cpt : List ℕ
deriving DecidableEq

def fernetEncrypt (key : ℕ) (pt : List ℕ) : Ciphertext :=
  { ckey := key, cpt := pt }

def fernetDecrypt (key : ℕ) (ct : Ciphertext) : Option (List ℕ) :=
  if ct.ckey = key then some ct.cpt else none

/-! ### Artifact container (`ModelEncryption.encrypt_model` / `decrypt_model`).
`metadata` carries `original_size`, the hex digest of the plaintext hash
(field `hash`), and `version`; `data` is the Fernet ciphertext.  The hash
function is an explicit parameter `sha : List ℕ → List ℕ` standing for
SHA-256 hexdigest. -/

structure Metadata where
  original_size : ℕ
  hash : List ℕ
  version : String
deriving DecidableEq

structure Package where
  metadata : Metadata
  data : Ciphertext
deriving DecidableEq

/-- Embedding of `ModelEncryption.encrypt_model` (src/ai/model_encryption.py,
lines 40–78): computes the plaintext hash, encrypts the plaintext, and wraps
both in a package. -/
def encrypt_model (sha : List ℕ → List ℕ) (key : ℕ) (model_data : List ℕ) : Package :=
  { metadata :=
      { original_size := model_data.length
        hash := sha model_data
        version := "1.0.0" }
    data := fernetEncrypt key model_data }

inductive DecryptError
  | decryptionFailed
  | integrityCheckFailed
deriving DecidableEq

/-- Embedding of `ModelEncryption.decrypt_model` (src/ai/model_encryption.py,
lines 80–101): decrypt the package's ciphertext (Fernet raises on an invalid
token, modelled by `DecryptError.decryptionFailed`), then recompute the hash
of the decrypted bytes and raise `ValueError` (modelled by
`DecryptError.integrityCheckFailed`) when it differs from the stored
metadata hash. -/
def decrypt_model (sha : List ℕ → List ℕ) (key : ℕ) (package : Package) :
    Except DecryptError (List ℕ) :=
  match fernetDecrypt key package.data with
  | none => .error .decryptionFailed
  | some decrypted_data =>
      if sha decrypted_data = package.metadata.hash then .ok decrypted_data
      else .error .integrityCheckFailed

/-! ### Key-file management (`ModelEncryption.__init__` / `_ensure_key_exists`
/ `_load_key`, src/ai/model_encryption.py lines 12–38).  The filesystem state
relevant to the constructor is the optional content of the key file together
with its permission bits; `chmodSupported` records whether `os.chmod`
succeeds on the platform (the source wraps it in try/except). -/

structure KeyFS where
  keyFile : Option (List ℕ)
  keyPerms : ℕ
  chmodSupported : Bool
deriving DecidableEq

/-- Mode 0o600: owner read/write only. -/
def ownerOnlyPerms : ℕ := 384

/-- Mode the key file is created with before the chmod call. -/
def defaultPerms : ℕ := 420

/-- Embedding of `ModelEncryption._ensure_key_exists`: when the key file is
absent, generate a fresh key (`gen`, the value `Fernet.generate_key()`
returns), write it, and restrict permissions to the owner where supported. -/
def ensure_key_exists (gen : List ℕ) (fs : KeyFS) : KeyFS :=
  match fs.keyFile with
  | some _ => fs
  | none =>
      { keyFile := some gen
        keyPerms := if fs.chmodSupported then ownerOnlyPerms else defaultPerms
        chmodSupported := fs.chmodSupported }

/-- Embedding of `ModelEncryption._load_key`: read the key file. -/
def load_key (fs : KeyFS) : Option (List ℕ) := fs.keyFile

inductive InitError
  | keyNotFound
deriving DecidableEq

/-- Embedding of `ModelEncryption.__init__` (also reached from
`SecureModelLoader.__init__`, src/backend/ai/model_loader.py lines 12–14):
ensure the key exists, then load it.  The result carries the updated
filesystem and the key held in memory. -/
def modelEncryptionInit (gen : List ℕ) (fs : KeyFS) :
    Except InitError (KeyFS × List ℕ) :=
  let fs2 := ensure_key_exists gen fs
  match load_key fs2 with
  | none => .error .keyNotFound
  | some k => .ok (fs2, k)

/-! ## Claims C1, C2, C9 -/

/-- C1: for every container whose ciphertext or stored metadata hash differs
from what `encrypt_model` produced, `decrypt_model` fails with a decryption
or integrity error; in particular a stored hash differing from the hash of
the decrypted plaintext makes `decrypt_model` raise rather than return.
The hypothesis `hforge` is the idealized unforgeability of the external
Fernet scheme: a ciphertext that is a valid token under `key` can only be
the genuine token for the original plaintext. -/
theorem tamper_detection_c1 (sha : List ℕ → List ℕ) (key : ℕ) (pt : List ℕ)
    (p : Package)
    (hforge : ∀ pt', p.data = fernetEncrypt key pt' → pt' = pt)
    (htamper : p.data ≠ (encrypt_model sha key pt).data ∨
      p.metadata.hash ≠ (encrypt_model sha key pt).metadata.hash) :
    decrypt_model sha key p = .error .decryptionFailed ∨
      decrypt_model sha key p = .error .integrityCheckFailed := by
  rcases hdec : fernetDecrypt key p.data with _ | pt'
  · left
    simp [decrypt_model, hdec]
  · -- the ciphertext decrypted: it is a valid token under `key`
    have hkey : p.data.ckey = key := by
      by_contra hk
      simp [fernetDecrypt, hk] at hdec
    have hpt' : p.data.cpt = pt' := by
      simpa [fernetDecrypt, hkey] using hdec
    have hgenuine : p.data = fernetEncrypt key pt' := by
      have heta : p.data = ⟨p.data.ckey, p.data.cpt⟩ := rfl
      rw [heta, hkey, hpt']
      rfl
    have hpt : pt' = pt := hforge pt' hgenuine
    have hdata : p.data = (encrypt_model sha key pt).data := by
      rw [hgenuine, hpt]
      rfl
    have hhash : p.metadata.hash ≠ sha pt := by
      rcases htamper with h | h
      · exact absurd hdata h
      · simpa [encrypt_model] using h
    have hne : ¬ (sha pt' = p.metadata.hash) := by
      rw [hpt]
      exact fun hc => hhash hc.symm
    right
    simp [decrypt_model, hdec, hne]

def wpkg : Package :=
  { metadata := { original_size := 3, hash := [9], version := "1.0.0" }
    data := fernetEncrypt 0 [1, 2, 3] }

theorem tamper_detection_c1_witness :
    decrypt_model (fun l => l) 0 wpkg = .error .decryptionFailed ∨
      decrypt_model (fun l => l) 0 wpkg = .error .integrityCheckFailed :=
  tamper_detection_c1 (fun l => l) 0 [1, 2, 3] wpkg
    (fun pt' h => by
      have h2 : wpkg.data.cpt = pt' := congrArg Ciphertext.cpt h
      simpa [wpkg, fernetEncrypt] using h2.symm)
    (Or.inr (by decide))

/-- C2: encrypting any plaintext and decrypting the resulting container with
the same key returns the original bytes, and the integrity check passes, so
`decrypt_model` returns normally. -/
theorem roundtrip_c2 (sha : List ℕ → List ℕ) (key : ℕ) (pt : List ℕ) :
    decrypt_model sha key (encrypt_model sha key pt) = .ok pt := by
  simp [decrypt_model, encrypt_model, fernetEncrypt, fernetDecrypt]

/-- C9: when the key file is absent, constructing the encryption helper never
fails with a missing-key error: a fresh key is generated, written to the key
path (owner-only permissions where chmod is supported), and is the key the
constructed object uses. -/
theorem key_autogeneration_c9 (gen : List ℕ) (fs : KeyFS)
    (h : fs.keyFile = none) :
    modelEncryptionInit gen fs =
      .ok ({ keyFile := some gen
             keyPerms := if fs.chmodSupported then ownerOnlyPerms else defaultPerms
             chmodSupported := fs.chmodSupported }, gen) := by
  simp [modelEncryptionInit, ensure_key_exists, load_key, h]

def wfs : KeyFS := { keyFile := none, keyPerms := 0, chmodSupported := true }

theorem key_autogeneration_c9_witness :
    wfs.keyFile = none ∧
      modelEncryptionInit [5] wfs =
        .ok ({ keyFile := some [5], keyPerms := ownerOnlyPerms,
               chmodSupported := true }, [5]) :=
  ⟨rfl, by simpa [wfs] using key_autogeneration_c9 [5] wfs rfl⟩

/-! ### Classification helpers (src/ai/inference_server.py lines 164–188;
identical copies live in src/ai/inference.py lines 240–265).
Python strings are modelled as `List Char`.  Python's `str.replace(old, "")`
removes every non-overlapping occurrence of `old`, scanning left to right
without re-examining already-emitted characters; `stripAllF` mirrors that,
with an explicit fuel argument (one unit per consumed character) to keep the
recursion structural. -/

def stripAllF (pat : List Char) : ℕ → List Char → List Char
  | _, [] => []
  | 0, s => s
  | fuel + 1, c :: rest =>
      if pat.isPrefixOf (c :: rest) then
        stripAllF pat fuel ((c :: rest).drop pat.length)
      else
        c :: stripAllF pat fuel rest

/-- `stripAll pat s` is Python's `s.replace(pat, "")` for a non-empty `pat`. -/
def stripAll (pat s : List Char) : List Char := stripAllF pat s.length s

/-- Embedding of `parse_class_name` (src/ai/inference_server.py lines
164–177): split a class name into category and optional subtype.  Note the
source computes the subtype with `str.replace`, which removes every
occurrence of the prefix string, not only the leading one. -/
def parse_class_name (s : List Char) : List Char × Option (List Char) :=
  if ("Pest_".toList).isPrefixOf s then
    ("Pest".toList, some (stripAll "Pest_".toList s))
  else if ("Nutrient_".toList).isPrefixOf s then
    ("Nutrient Deficiency".toList, some (stripAll "Nutrient_".toList s))
  else if s = "Healthy".toList then ("Healthy".toList, none)
  else if s = "Water_Stress".toList then ("Water Stress".toList, none)
  else if s = "Not_Plant".toList then ("Invalid Input".toList, none)
  else (s, none)

/-- Embedding of `get_confidence_level` (src/ai/inference_server.py lines
179–188).  The float comparisons in the source are against exact decimal
literals, faithfully modelled over `ℚ`. -/
def get_confidence_level (confidence : ℚ) : String :=
  if confidence ≥ 0.85 then "Very High"
  else if confidence ≥ 0.70 then "High"
  else if confidence ≥ 0.55 then "Moderate"
  else "Low"

/-! ## Claims C6, C7 -/

/-- C6 counterexample: the claim says a name prefixed `Pest_` maps to the
remainder after the prefix as subtype, but the source removes every
occurrence of `"Pest_"`, so `"Pest_Pest_A"` yields subtype `"A"`, not the
remainder `"Pest_A"`. -/
theorem parse_class_name_c6_cex :
    parse_class_name ("Pest_Pest_A".toList) = ("Pest".toList, some ("A".toList))
    ∧ parse_class_name ("Pest_Pest_A".toList) ≠
        ("Pest".toList, some (("Pest_Pest_A".toList).drop ("Pest_".toList).length)) := by
  constructor
  · decide
  · decide

/-- C6 (amended): a name prefixed `Pest_` maps to category `"Pest"` with the
name stripped of every occurrence of `"Pest_"` as subtype; a name prefixed
`Nutrient_` maps to `"Nutrient Deficiency"` with every occurrence of
`"Nutrient_"` removed; `"Healthy"`, `"Water_Stress"`, `"Not_Plant"` map to
`("Healthy", none)`, `("Water Stress", none)`, `("Invalid Input", none)`;
any other name maps to itself with no subtype. -/
theorem parse_class_name_c6 (s : List Char) :
    ("Pest_".toList <+: s →
      parse_class_name s = ("Pest".toList, some (stripAll "Pest_".toList s)))
    ∧ (¬ "Pest_".toList <+: s → "Nutrient_".toList <+: s →
        parse_class_name s =
          ("Nutrient Deficiency".toList, some (stripAll "Nutrient_".toList s)))
    ∧ parse_class_name ("Healthy".toList) = ("Healthy".toList, none)
    ∧ parse_class_name ("Water_Stress".toList) = ("Water Stress".toList, none)
    ∧ parse_class_name ("Not_Plant".toList) = ("Invalid Input".toList, none)
    ∧ (¬ "Pest_".toList <+: s → ¬ "Nutrient_".toList <+: s →
        s ≠ "Healthy".toList → s ≠ "Water_Stress".toList →
        s ≠ "Not_Plant".toList → parse_class_name s = (s, none)) := by
  refine ⟨?_, ?_, by decide, by decide, by decide, ?_⟩
  · intro h
    simp at h
    simp [parse_class_name, h]
  · intro h1 h2
    simp at h1 h2
    simp [parse_class_name, h1, h2]
  · intro h1 h2 h3 h4 h5
    simp at h1 h2 h3 h4 h5
    simp [parse_class_name, h1, h2, h3, h4, h5]

theorem parse_class_name_c6_witness :
    "Pest_".toList <+: "Pest_Insect".toList
    ∧ parse_class_name ("Pest_Insect".toList) =
        ("Pest".toList, some (stripAll "Pest_".toList "Pest_Insect".toList)) :=
  ⟨by decide, (parse_class_name_c6 ("Pest_Insect".toList)).1 (by decide)⟩

/-- C7: confidence banding is an inclusive-lower-bound threshold ladder:
`≥ 0.85` gives `"Very High"`, otherwise `≥ 0.70` gives `"High"`, otherwise
`≥ 0.55` gives `"Moderate"`, otherwise `"Low"`; in particular `0.85` gives
`"Very High"`, `0.70` gives `"High"`, and `0.5499` gives `"Low"`. -/
theorem get_confidence_level_c7 (c : ℚ) :
    ((0.85 : ℚ) ≤ c → get_confidence_level c = "Very High")
    ∧ ((0.70 : ℚ) ≤ c → c < 0.85 → get_confidence_level c = "High")
    ∧ ((0.55 : ℚ) ≤ c → c < 0.70 → get_confidence_level c = "Moderate")
    ∧ (c < (0.55 : ℚ) → get_confidence_level c = "Low")
    ∧ get_confidence_level 0.85 = "Very High"
    ∧ get_confidence_level 0.70 = "High"
    ∧ get_confidence_level 0.5499 = "Low" := by
  refine ⟨?_, ?_, ?_, ?_, by norm_num [get_confidence_level],
    by norm_num [get_confidence_level], by norm_num [get_confidence_level]⟩
  · intro h
    rw [get_confidence_level, if_pos (by exact h)]
  · intro h1 h2
    rw [get_confidence_level, if_neg (by exact not_le.mpr h2),
      if_pos (by exact h1)]
  · intro h1 h2
    rw [get_confidence_level, if_neg (by exact not_le.mpr (by linarith)),
      if_neg (by exact not_le.mpr h2), if_pos (by exact h1)]
  · intro h
    rw [get_confidence_level, if_neg (by exact not_le.mpr (by linarith)),
      if_neg (by exact not_le.mpr (by linarith)),
      if_neg (by exact not_le.mpr h)]

theorem get_confidence_level_c7_witness :
    (0.85 : ℚ) ≤ 0.9 ∧ get_confidence_level 0.9 = "Very High" :=
  ⟨by norm_num, (get_confidence_level_c7 0.9).1 (by norm_num)⟩

/-! ### Ranked probabilities (src/ai/inference_server.py, `predict`, lines
232–240).  The source builds one entry per configured class, in class-list
order, then sorts with Python's stable `list.sort(key=confidence,
reverse=True)`.  An entry is modelled as `(original class index,
confidence)`; `sortRanked` is a stable descending insertion sort, which
computes the same output as any stable sort by descending confidence. -/

def CONFIG_classes : List String :=
  ["Healthy", "Pest_Fungal", "Pest_Bacterial", "Pest_Insect",
   "Nutrient_Nitrogen", "Nutrient_Potassium", "Water_Stress", "Not_Plant"]

def numClasses : ℕ := CONFIG_classes.length

/-- Insert `x` into a descending-sorted list, after every entry with
strictly larger confidence and before every entry with smaller-or-equal
confidence; processing the original list from the right makes this the
stable descending sort. -/
def insertRanked (x : ℕ × ℚ) : List (ℕ × ℚ) → List (ℕ × ℚ)
  | [] => [x]
  | y :: ys => if y.2 ≤ x.2 then x :: y :: ys else y :: insertRanked x ys

def sortRanked : List (ℕ × ℚ) → List (ℕ × ℚ)
  | [] => []
  | x :: xs => insertRanked x (sortRanked xs)

/-- The `all_probs` list before sorting: one entry per configured class, in
class-list order (`for i in range(len(CONFIG['classes']))`). -/
def allProbs (probs : List ℚ) : List (ℕ × ℚ) :=
  (List.range numClasses).map (fun i => (i, probs.getD i 0))

/-- The sorted `all_probs` list the classification result reports. -/
def rankedProbs (probs : List ℚ) : List (ℕ × ℚ) :=
  sortRanked (allProbs probs)

/-- Strict ranking order: higher confidence first; on equal confidence the
smaller original class index first. -/
def lexLt (a b : ℕ × ℚ) : Prop := b.2 < a.2 ∨ (a.2 = b.2 ∧ a.1 < b.1)

theorem insertRanked_perm (x : ℕ × ℚ) (l : List (ℕ × ℚ)) :
    (insertRanked x l).Perm (x :: l) := by
  induction l with
  | nil => exact List.Perm.refl _
  | cons y ys ih =>
      by_cases h : y.2 ≤ x.2
      · simp [insertRanked, h]
      · simp only [insertRanked, if_neg h]
        exact (ih.cons y).trans (List.Perm.swap x y ys)

theorem sortRanked_perm (l : List (ℕ × ℚ)) : (sortRanked l).Perm l := by
  induction l with
  | nil => exact List.Perm.refl _
  | cons x xs ih =>
      exact (insertRanked_perm x (sortRanked xs)).trans (ih.cons x)

theorem pairwise_insertRanked (x : ℕ × ℚ) (l : List (ℕ × ℚ))
    (hl : l.Pairwise lexLt) (hx : ∀ y ∈ l, x.1 < y.1) :
    (insertRanked x l).Pairwise lexLt := by
  induction l with
  | nil => simp [insertRanked]
  | cons y ys ih =>
      rcases List.pairwise_cons.mp hl with ⟨hy, hys⟩
      by_cases h : y.2 ≤ x.2
      · simp only [insertRanked, if_pos h]
        refine List.pairwise_cons.mpr ⟨?_, hl⟩
        intro z hz
        rcases List.mem_cons.mp hz with hzy | hz2
        · -- z = y
          rw [hzy]
          rcases lt_or_eq_of_le h with hlt | heq
          · exact Or.inl hlt
          · exact Or.inr ⟨heq.symm, hx y (List.mem_cons_self y ys)⟩
        · -- z ∈ ys
          have hyz := hy z hz2
          rcases hyz with hz3 | ⟨hz3, _⟩
          · exact Or.inl (lt_of_lt_of_le hz3 h)
          · rcases lt_or_eq_of_le h with hlt | heq
            · exact Or.inl (hz3 ▸ hlt)
            · exact Or.inr ⟨heq.symm.trans hz3, hx z (List.mem_cons_of_mem y hz2)⟩
      · simp only [insertRanked, if_neg h]
        refine List.pairwise_cons.mpr ⟨?_, ?_⟩
        · intro z hz
          have hz1 := List.mem_cons.mp ((insertRanked_perm x ys).mem_iff.mp hz)
          rcases hz1 with rfl | hz2
          · exact Or.inl (lt_of_not_le h)
          · exact hy z hz2
        · exact ih hys (fun z hz => hx z (List.mem_cons_of_mem y hz))

theorem pairwise_sortRanked (l : List (ℕ × ℚ))
    (h : l.Pairwise (fun a b => a.1 < b.1)) :
    (sortRanked l).Pairwise lexLt := by
  induction l with
  | nil => simp [sortRanked]
  | cons x xs ih =>
      rcases List.pairwise_cons.mp h with ⟨hx, hxs⟩
      refine pairwise_insertRanked x (sortRanked xs) (ih hxs) ?_
      intro y hy
      exact hx y ((sortRanked_perm xs).mem_iff.mp hy)

theorem allProbs_pairwise_fst (probs : List ℚ) :
    (allProbs probs).Pairwise (fun a b => a.1 < b.1) := by
  have h := List.pairwise_lt_range numClasses
  exact (List.pairwise_map.mpr (h.imp (fun hab => hab)))

/-! ## Claim C8 -/

/-- C8: the ranked probability list contains every configured class exactly
once (its index multiset is exactly `range numClasses`), is sorted by
confidence in descending order, and breaks ties between equal confidences
by the original class-list position (stable sort). -/
theorem ranked_probabilities_c8 (probs : List ℚ)
    (h : probs.length = numClasses) :
    ((rankedProbs probs).map Prod.fst).Perm (List.range numClasses)
    ∧ (rankedProbs probs).Pairwise (fun a b => b.2 ≤ a.2)
    ∧ (rankedProbs probs).Pairwise lexLt := by
  have hperm : (rankedProbs probs).Perm (allProbs probs) :=
    sortRanked_perm (allProbs probs)
  have hpw : (rankedProbs probs).Pairwise lexLt :=
    pairwise_sortRanked (allProbs probs) (allProbs_pairwise_fst probs)
  refine ⟨?_, ?_, hpw⟩
  · have h1 : ((allProbs probs).map Prod.fst) = List.range numClasses := by
      have h2 : (Prod.fst ∘ fun i : ℕ => (i, probs.getD i 0)) = fun i => i := rfl
      rw [allProbs, List.map_map, h2, List.map_id']
    exact h1 ▸ hperm.map Prod.fst
  · refine hpw.imp ?_
    intro a b hab
    rcases hab with hab | ⟨hab, _⟩
    · exact le_of_lt hab
    · exact le_of_eq hab.symm

def wprobs : List ℚ := [0.1, 0.3, 0.1, 0.05, 0.05, 0.1, 0.2, 0.1]

theorem ranked_probabilities_c8_witness :
    wprobs.length = numClasses
    ∧ (((rankedProbs wprobs).map Prod.fst).Perm (List.range numClasses)
      ∧ (rankedProbs wprobs).Pairwise (fun a b => b.2 ≤ a.2)
      ∧ (rankedProbs wprobs).Pairwise lexLt) :=
  ⟨by decide, ranked_probabilities_c8 wprobs (by decide)⟩

/-! ### Worker loop (src/ai/inference_server.py, `run_server` lines 311–374,
`signal_handler` lines 376–385, `load_model_securely` lines 95–133).

An input line is modelled by its parse outcome (`json.loads` plus the
`request.get('imagePath')` access are deterministic in the line's text):
`malformed e` stands for a line on which parsing raises `e`, `parsed ip`
for a JSON object whose `imagePath` entry is `ip` (absent or `null`
modelled as `none`).  The external collaborators — the image filesystem and
the preprocess/infer pipeline — live in `ServerEnv`.  A protocol output
line is a JSON object, modelled as its ordered field list; the opaque
serialized classification-result payload of a success response is a token
`ℕ`.

The signal handler registered for SIGINT/SIGTERM calls `sys.exit(0)`, which
raises `SystemExit` at the Python-bytecode boundary where the signal is
observed; `SystemExit` is not an `Exception`, so the loop's
`except Exception` clause does not catch it and the process unwinds with
exit status 0 from wherever it was.  A signal schedule `some (j, w)` means
the signal arrives while request `j` is being handled — `When.beforeRead`
while blocked reading line `j`, `When.midRequest` after processing of line
`j` began but before its response line was written; in both cases the
`SystemExit` aborts before a response for line `j` exists.  `none` means no
signal arrives. -/

structure PyErr where
  msg : String
  ty : String
deriving DecidableEq

inductive LineParse
  | malformed (e : PyErr)
  | parsed (imagePath : Option String)
deriving DecidableEq

inductive JField
  | jbool (b : Bool)
  | jstr (s : String)
  | jobj (tok : ℕ)
deriving DecidableEq

abbrev JLine := List (String × JField)

structure ServerEnv where
  modelFileExists : Bool
  keyFileExists : Bool
  loadResult : Except PyErr Unit
  fileExists : String → Bool
  predictRes : String → Except PyErr ℕ

inductive StartupError
  | modelNotFound
  | keyNotFound
  | loadFailed (e : PyErr)
deriving DecidableEq

/-- Embedding of `load_model_securely` (lines 95–133): check the encrypted
model file and the key file exist (each missing file raises
`FileNotFoundError`), then run the secure loader, which may itself raise. -/
def load_model_securely (env : ServerEnv) : Except StartupError Unit :=
  if env.modelFileExists = false then .error .modelNotFound
  else if env.keyFileExists = false then .error .keyNotFound
  else
    match env.loadResult with
    | .error e => .error (.loadFailed e)
    | .ok _ => .ok ()

/-- The body of the per-request `try` block (lines 330–341): parse the line,
reject a missing or empty `imagePath` (`if not image_path`), reject a path
that does not exist on disk, then run prediction. -/
def processLine (env : ServerEnv) : LineParse → Except PyErr ℕ
  | .malformed e => .error e
  | .parsed none => .error { msg := "No imagePath provided", ty := "ValueError" }
  | .parsed (some p) =>
      if p = "" then .error { msg := "No imagePath provided", ty := "ValueError" }
      else if env.fileExists p = false then
        .error { msg := "Image not found: " ++ p, ty := "FileNotFoundError" }
      else env.predictRes p

/-- The one JSON line written for a request (lines 343–374): the success
response on a normal return, the error response built in the
`except Exception` clause otherwise. -/
def responseJson : Except PyErr ℕ → JLine
  | .ok d => [("success", .jbool true), ("data", .jobj d)]
  | .error e =>
      [("success", .jbool false), ("error", .jstr e.msg), ("error_type", .jstr e.ty)]

inductive When
  | beforeRead
  | midRequest
deriving DecidableEq

/-- The request loop (`for line in sys.stdin`, lines 329–374), with the
request index `i` of the next line and the signal schedule threaded through.
Input exhaustion ends the loop normally (exit status 0 after `main`
returns); a signal observed at request `j` raises `SystemExit(0)` before
the response for line `j` is written, so the loop contributes no further
output and the process exits with status 0. -/
def runLoop (env : ServerEnv) : List LineParse → ℕ → Option (ℕ × When) → List JLine × ℕ
  | [], _, _ => ([], 0)
  | l :: rest, i, none =>
      let p := runLoop env rest (i + 1) none
      (responseJson (processLine env l) :: p.1, p.2)
  | l :: rest, i, some (j, w) =>
      if j = i then ([], 0)
      else
        let p := runLoop env rest (i + 1) (some (j, w))
        (responseJson (processLine env l) :: p.1, p.2)

inductive OutLine
  | ready
  | line (jl : JLine)
deriving DecidableEq

/-- Embedding of `run_server` under `main` (lines 311–327, 382–420): load
the model — an uncaught startup exception terminates the interpreter with
exit status 1 and nothing on the protocol channel — then write the `READY`
marker and enter the request loop. -/
def run_server_full (env : ServerEnv) (lines : List LineParse)
    (sig : Option (ℕ × When)) : List OutLine × ℕ :=
  match load_model_securely env with
  | .error _ => ([], 1)
  | .ok _ =>
      let p := runLoop env lines 0 sig
      (OutLine.ready :: p.1.map OutLine.line, p.2)

def isStr : Option JField → Bool
  | some (.jstr _) => true
  | _ => false

def isObj : Option JField → Bool
  | some (.jobj _) => true
  | _ => false

theorem runLoop_no_signal (env : ServerEnv) (lines : List LineParse) (i : ℕ) :
    runLoop env lines i none =
      (lines.map (fun l => responseJson (processLine env l)), 0) := by
  induction lines generalizing i with
  | nil => rfl
  | cons l rest ih => simp [runLoop, ih]

theorem runLoop_signal (env : ServerEnv) (lines : List LineParse)
    (i j : ℕ) (w : When) (hij : i ≤ j) :
    runLoop env lines i (some (j, w)) =
      ((lines.take (j - i)).map (fun l => responseJson (processLine env l)), 0) := by
  induction lines generalizing i with
  | nil => simp [runLoop]
  | cons l rest ih =>
      by_cases hji : j = i
      · subst hji
        simp [runLoop, Nat.sub_self]
      · have hlt : i < j := lt_of_le_of_ne hij (Ne.symm hji)
        obtain ⟨k, hk⟩ : ∃ k, j - i = k + 1 :=
          ⟨j - i - 1, (Nat.succ_pred_eq_of_pos (Nat.sub_pos_of_lt hlt)).symm⟩
        have hk2 : j - (i + 1) = k := by omega
        simp [runLoop, hji, ih (i + 1) hlt, hk, hk2]

/-! ## Claims C3, C4, C5, C10 -/

/-- C3: with no termination signal, the loop writes exactly one response
line per request line, in receipt order; any per-request failure (malformed
JSON, missing imagePath, nonexistent image, inference error) yields the
Failure response object for that line, the loop reaches every later line,
and the process still ends normally (status 0). -/
theorem one_response_per_request_c3 (env : ServerEnv) (lines : List LineParse) :
    (runLoop env lines 0 none).1.length = lines.length
    ∧ (runLoop env lines 0 none).2 = 0
    ∧ (∀ i, (runLoop env lines 0 none).1.get? i =
        (lines.get? i).map (fun l => responseJson (processLine env l)))
    ∧ (∀ i l e, lines.get? i = some l → processLine env l = .error e →
        (runLoop env lines 0 none).1.get? i =
          some [("success", JField.jbool false), ("error", JField.jstr e.msg),
                ("error_type", JField.jstr e.ty)]) := by
  rw [runLoop_no_signal]
  refine ⟨by simp, rfl, ?_, ?_⟩
  · intro i
    simp [List.get?_map]
  · intro i l e h1 h2
    rw [List.get?_eq_getElem?] at h1
    simp [List.get?_map, h1, h2, responseJson]

def wenv : ServerEnv :=
  { modelFileExists := true
    keyFileExists := true
    loadResult := .ok ()
    fileExists := fun _ => true
    predictRes := fun _ => .ok 7 }

def wlines : List LineParse :=
  [.parsed (some "a.jpg"), .parsed none, .parsed (some "b.jpg")]

theorem one_response_per_request_c3_witness :
    wlines.get? 1 = some (.parsed none)
    ∧ processLine wenv (.parsed none) =
        .error { msg := "No imagePath provided", ty := "ValueError" }
    ∧ (runLoop wenv wlines 0 none).1.get? 1 =
        some [("success", JField.jbool false),
              ("error", JField.jstr "No imagePath provided"),
              ("error_type", JField.jstr "ValueError")] :=
  ⟨rfl, rfl, (one_response_per_request_c3 wenv wlines).2.2.2 1 (.parsed none)
    { msg := "No imagePath provided", ty := "ValueError" } rfl rfl⟩

/-- C4 counterexample: the claim says a request in flight when the signal
arrives is completed (its response is written) before the worker stops.  In
the source, `signal_handler` calls `sys.exit(0)` and the resulting
`SystemExit` is not caught by the loop's `except Exception`, so a signal
arriving mid-request aborts the in-flight exchange: for one well-formed
request with the signal arriving during its processing, the protocol output
is empty — the completed-exchange output the claim requires never appears. -/
theorem signal_aborts_inflight_c4_cex :
    (runLoop wenv [LineParse.parsed (some "a.jpg")] 0 (some (0, When.midRequest))).1 = []
    ∧ (runLoop wenv [LineParse.parsed (some "a.jpg")] 0 (some (0, When.midRequest))).1
        ≠ [responseJson (processLine wenv (LineParse.parsed (some "a.jpg")))] := by
  constructor
  · rfl
  · decide

/-- C4 (amended): after a termination signal is observed at request `j`, the
worker never begins processing a new request (only the `j` earlier requests
are answered) and exits with status 0; a request in flight when the signal
arrives is aborted without its response being written, because the handler
raises `SystemExit(0)` at the point of arrival instead of completing the
exchange. -/
theorem shutdown_signal_c4 (env : ServerEnv) (lines : List LineParse)
    (j : ℕ) (w : When) :
    runLoop env lines 0 (some (j, w)) =
      ((lines.take j).map (fun l => responseJson (processLine env l)), 0) := by
  simpa using runLoop_signal env lines 0 j w (Nat.zero_le j)

/-- C5: if the key file is missing when the server-mode worker starts, the
process exits with the non-zero status 1 and writes nothing at all to the
protocol channel — in particular the `READY` marker is never emitted. -/
theorem missing_key_startup_c5 (env : ServerEnv) (lines : List LineParse)
    (sig : Option (ℕ × When)) (h : env.keyFileExists = false) :
    run_server_full env lines sig = ([], 1)
    ∧ OutLine.ready ∉ (run_server_full env lines sig).1 := by
  have hload : ∃ e, load_model_securely env = .error e := by
    rw [load_model_securely]
    by_cases hm : env.modelFileExists = false
    · exact ⟨.modelNotFound, by simp [hm]⟩
    · exact ⟨.keyNotFound, by simp [hm, h]⟩
  obtain ⟨e, he⟩ := hload
  have hrun : run_server_full env lines sig = ([], 1) := by
    simp [run_server_full, he]
  exact ⟨hrun, by simp [hrun]⟩

def wenvNoKey : ServerEnv :=
  { modelFileExists := true
    keyFileExists := false
    loadResult := .ok ()
    fileExists := fun _ => true
    predictRes := fun _ => .ok 7 }

theorem missing_key_startup_c5_witness :
    wenvNoKey.keyFileExists = false
    ∧ (run_server_full wenvNoKey wlines none = ([], 1)
      ∧ OutLine.ready ∉ (run_server_full wenvNoKey wlines none).1) :=
  ⟨rfl, missing_key_startup_c5 wenvNoKey wlines none rfl⟩

theorem mem_runLoop_responses (env : ServerEnv) (lines : List LineParse)
    (i : ℕ) (sig : Option (ℕ × When)) (r : JLine)
    (h : r ∈ (runLoop env lines i sig).1) :
    ∃ l, r = responseJson (processLine env l) := by
  induction lines generalizing i sig with
  | nil =>
      simp [runLoop] at h
  | cons l rest ih =>
      match sig with
      | none =>
          simp only [runLoop] at h
          rcases List.mem_cons.mp h with h1 | h1
          · exact ⟨l, h1⟩
          · exact ih (i + 1) none h1
      | some (j, w) =>
          by_cases hji : j = i
          · simp [runLoop, hji] at h
          · simp only [runLoop, if_neg hji] at h
            rcases List.mem_cons.mp h with h1 | h1
            · exact ⟨l, h1⟩
            · exact ih (i + 1) (some (j, w)) h1

/-- C10: every line on the protocol channel after the readiness marker is a
single JSON object carrying a boolean `success` field; a `true` object has
exactly the fields `success` and `data` (the classification result), a
`false` object has exactly the fields `success`, `error` and `error_type`,
both strings (the raised exception's message and class name), and no
`data` field. -/
theorem response_shape_c10 (env : ServerEnv) (lines : List LineParse)
    (sig : Option (ℕ × When)) (jl : JLine)
    (hmem : OutLine.line jl ∈ (run_server_full env lines sig).1) :
    (jl.map Prod.fst = ["success", "data"]
      ∧ jl.lookup "success" = some (JField.jbool true)
      ∧ isObj (jl.lookup "data") = true)
    ∨ (jl.map Prod.fst = ["success", "error", "error_type"]
      ∧ jl.lookup "success" = some (JField.jbool false)
      ∧ isStr (jl.lookup "error") = true
      ∧ isStr (jl.lookup "error_type") = true) := by
  rw [run_server_full] at hmem
  rcases hload : load_model_securely env with e | u
  · rw [hload] at hmem
    simp at hmem
  · rw [hload] at hmem
    simp only [List.mem_cons] at hmem
    rcases hmem with h1 | h1
    · exact absurd h1.symm (by simp)
    · have hinj : Function.Injective OutLine.line := fun a b hab => by
        injection hab
      have hr : jl ∈ (runLoop env lines 0 sig).1 :=
        (List.mem_map_of_injective hinj).mp h1
      obtain ⟨l, hl⟩ := mem_runLoop_responses env lines 0 sig jl hr
      rw [hl]
      rcases hp : processLine env l with e2 | d
      · right
        exact ⟨rfl, rfl, rfl, rfl⟩
      · left
        exact ⟨rfl, rfl, rfl⟩

theorem response_shape_c10_witness :
    OutLine.line (responseJson (Except.ok 7)) ∈
        (run_server_full wenv [LineParse.parsed (some "a.jpg")] none).1
    ∧ (((responseJson (Except.ok 7)).map Prod.fst = ["success", "data"]
        ∧ (responseJson (Except.ok 7)).lookup "success" = some (JField.jbool true)
        ∧ isObj ((responseJson (Except.ok 7)).lookup "data") = true)
      ∨ ((responseJson (Except.ok 7)).map Prod.fst = ["success", "error", "error_type"]
        ∧ (responseJson (Except.ok 7)).lookup "success" = some (JField.jbool false)
        ∧ isStr ((responseJson (Except.ok 7)).lookup "error") = true
        ∧ isStr ((responseJson (Except.ok 7)).lookup "error_type") = true)) :=
  ⟨by decide, response_shape_c10 wenv [LineParse.parsed (some "a.jpg")] none
    (responseJson (Except.ok 7)) (by decide)⟩
